import Mathlib

/-!
Verification of the ELD trip planner frontend against its specification.

The development shallowly embeds the relevant JavaScript sources:
* `frontend/src/utils/time.js` — `formatTripTime`;
* the ELD log page component — `clampHour`, `normalizePeriods`,
  `totalsFromPeriods`, `STATUS_ROWS`;
* the application component — `isCoordinatePair`, `handleSubmit` and the
  saved-plans update, and `planTrip` from the trip service.

JavaScript numbers are modelled as rationals (`ℚ`), JavaScript strings as
Lean strings, and the host string primitives (`trim`, `split`,
`padStart`, integer `toString`) as executable Lean functions below.
`Number(...)`/`parseFloat(...)` applied to free-form user text are taken
as abstract parameters `String → Option ℚ` (with `none` standing for
`NaN`), so every theorem holds for any numeric-parsing behaviour.
-/

/-! ## Models of the JavaScript host primitives -/

/-- Model of a character removed by `String.prototype.trim`: the
ECMAScript `WhiteSpace` set (TAB, VT, FF, SP, NBSP, ZWNBSP and the Unicode
Space_Separator category) together with the `LineTerminator` set
(LF, CR, LS, PS). -/
def isJsWhitespace (c : Char) : Bool :=
  c = ' ' || c = '\t' || c = '\n' || c = '\r' || c = '\x0b' || c = '\x0c' ||
  c = '\u00A0' || c = '\uFEFF' || c = '\u1680' ||
  ('\u2000' ≤ c && c ≤ '\u200A') ||
  c = '\u2028' || c = '\u2029' || c = '\u202F' || c = '\u205F' || c = '\u3000'

/-- Model of `String.prototype.trim`: drop leading and trailing whitespace. -/
def jsTrim (s : String) : String :=
  String.mk (((s.data.dropWhile isJsWhitespace).reverse.dropWhile isJsWhitespace).reverse)

/-- Splitting a character list at every occurrence of `sep`
(the recursion behind `String.prototype.split`). -/
def jsSplitChars (sep : Char) : List Char → List (List Char)
  | [] => [[]]
  | c :: rest =>
    if c = sep then [] :: jsSplitChars sep rest
    else
      match jsSplitChars sep rest with
      | [] => [[c]]
      | h :: t => (c :: h) :: t

/-- Model of `String.prototype.split` with a one-character separator:
`"".split(sep) = [""]`, and separators delimit (possibly empty) fields. -/
def jsSplit (sep : Char) (s : String) : List String :=
  (jsSplitChars sep s.data).map String.mk

/-- Decimal rendering of an integer, as produced by JavaScript
`Number.prototype.toString` on integer values. -/
def intToString (n : ℤ) : String :=
  if n < 0 then "-" ++ String.mk (Nat.toDigits 10 (-n).toNat)
  else String.mk (Nat.toDigits 10 n.toNat)

/-- Model of `String.prototype.padStart(2, "0")`. -/
def padStart2 (s : String) : String :=
  if s.length < 2 then String.mk (List.replicate (2 - s.length) '0') ++ s else s

/-- Truncation toward zero, as used by the JavaScript `%` operator. -/
def ratTrunc (q : ℚ) : ℤ :=
  if 0 ≤ q then ⌊q⌋ else -⌊-q⌋

/-- Model of the JavaScript remainder operator `a % b`
(`a - b * trunc (a / b)` for finite operands). -/
def jsMod (a b : ℚ) : ℚ :=
  a - b * (ratTrunc (a / b) : ℚ)

/-- Model of `Math.round`: round half away from zero coincides with
`⌊q + 1/2⌋` on the non-negative values this development evaluates it at. -/
def jsRound (q : ℚ) : ℤ :=
  ⌊q + 1 / 2⌋

/-! ## `frontend/src/utils/time.js` -/

/-- Embedding of `formatTripTime(absHour, separator)`.
`Number(absHour) || 0` is the identity on the rational model of a numeric
argument (`0 || 0` is `0`), so it is elided. `Math.floor` is `⌊·⌋`. -/
def formatTripTime (absHour : ℚ) (separator : String) : String :=
  let numeric := absHour
  let day := ⌊numeric / 24⌋ + 1
  let h := jsMod numeric 24
  let hh := padStart2 (intToString ⌊h⌋)
  let mm := padStart2 (intToString (jsRound (jsMod h 1 * 60)))
  "Day " ++ intToString day ++ separator ++ hh ++ ":" ++ mm

/-! ## The ELD log page: day-log period normalisation -/

/-- One row of the `STATUS_ROWS` table (label and colour are omitted:
no claim mentions them). -/
structure StatusRow where
  key : String
  level : ℕ
deriving DecidableEq

/-- The four duty-status rows of the paper log grid. -/
def STATUS_ROWS : List StatusRow :=
  [⟨"off_duty", 0⟩, ⟨"sleeper", 1⟩, ⟨"driving", 2⟩, ⟨"on_duty_not_driving", 3⟩]

/-- Own-property lookup in the `STATUS_BY_KEY` map built from
`STATUS_ROWS` by `reduce`. -/
def statusByKey (s : String) : Option StatusRow :=
  STATUS_ROWS.find? (fun row => row.key == s)

/-- The property names a plain JavaScript object inherits from
`Object.prototype`, all of whose values are truthy (functions, and the
`__proto__` accessor which yields `Object.prototype` itself). -/
def OBJECT_PROTOTYPE_KEYS : List String :=
  ["constructor", "hasOwnProperty", "isPrototypeOf", "propertyIsEnumerable",
   "toLocaleString", "toString", "valueOf", "__proto__",
   "__defineGetter__", "__defineSetter__", "__lookupGetter__", "__lookupSetter__"]

/-- The truthiness test `STATUS_BY_KEY[period.status] ? ... : null` of the
program: property lookup on a plain object walks the prototype chain, so a
status is accepted when it is one of the four own keys or any inherited
`Object.prototype` property name. -/
def statusRecognized (s : String) : Bool :=
  (statusByKey s).isSome || OBJECT_PROTOTYPE_KEYS.contains s

/-- Embedding of `clampHour`: `Math.max(0, Math.min(24, Number(hour) || 0))`,
on an already-numeric argument. -/
def clampHour (hour : ℚ) : ℚ :=
  max 0 (min 24 hour)

/-- A raw period of a day log, as consumed by `normalizePeriods`. -/
structure RawPeriod where
  status : String
  start_hour_of_day : ℚ
  end_hour_of_day : ℚ
deriving DecidableEq

/-- A normalised period: `{ start, end, status }` (the `end` field is named
`endHour` because `end` is a Lean keyword). -/
structure NPeriod where
  start : ℚ
  endHour : ℚ
  status : String
deriving DecidableEq

/-- The body of the `forEach` inside `normalizePeriods`: drop a period whose
status makes `STATUS_BY_KEY[period.status]` falsy (prototype-chain lookup,
see `statusRecognized`); clamp both hours; keep the period if
`end > start`, and otherwise split it across midnight. -/
def expandPeriod (p : RawPeriod) : List NPeriod :=
  if statusRecognized p.status then
    let start := clampHour p.start_hour_of_day
    let e := clampHour p.end_hour_of_day
    if start < e then [⟨start, e, p.status⟩]
    else
      (if start < 24 then [⟨start, 24, p.status⟩] else []) ++
        (if 0 < e then [⟨0, e, p.status⟩] else [])
  else []

/-- The comparator `(a, b) => a.start - b.start || a.end - b.end` orders
periods by start hour, then by end hour. -/
def sortLe (a b : NPeriod) : Prop :=
  a.start < b.start ∨ (a.start = b.start ∧ a.endHour ≤ b.endHour)

instance : DecidableRel sortLe := fun a b => by
  unfold sortLe; exact inferInstance

/-- The gap-filling loop of `normalizePeriods` building
`withFullDayCoverage`: walk the sorted periods with a `cursor`, emit an
`off_duty` filler for any gap, clip each period to start no earlier than the
cursor, and pad the tail of the day with `off_duty`. -/
def withFullDayCoverage : ℚ → List NPeriod → List NPeriod
  | cursor, [] => if cursor < 24 then [⟨cursor, 24, "off_duty"⟩] else []
  | cursor, q :: rest =>
    let start := max cursor q.start
    let e := max start q.endHour
    (if cursor < start then [⟨cursor, start, "off_duty"⟩] else []) ++
      (if start < e then ⟨start, e, q.status⟩ :: withFullDayCoverage e rest
       else withFullDayCoverage cursor rest)

/-- Embedding of `normalizePeriods`. JavaScript `Array.prototype.sort` is a
stable sort by the comparator; it is modelled by insertion sort on the
comparator's ordering. An empty result is replaced by a full `off_duty` day. -/
def normalizePeriods (periods : List RawPeriod) : List NPeriod :=
  let normalized := periods.flatMap expandPeriod
  let sorted := List.insertionSort sortLe normalized
  if sorted.isEmpty then [⟨0, 24, "off_duty"⟩]
  else withFullDayCoverage 0 sorted

/-- The four per-status totals accumulated by `totalsFromPeriods`. -/
structure Totals where
  off_duty : ℚ
  sleeper : ℚ
  driving : ℚ
  on_duty_not_driving : ℚ
deriving DecidableEq

/-- One step of the reducer in `totalsFromPeriods`:
`acc[period.status] += Math.max(0, period.end - period.start)`. A status
other than the four tracked keys leaves all four tracked totals unchanged
(in JavaScript it would create an extra property, never read back). -/
def addDuration (acc : Totals) (p : NPeriod) : Totals :=
  let duration := max 0 (p.endHour - p.start)
  if p.status = "off_duty" then { acc with off_duty := acc.off_duty + duration }
  else if p.status = "sleeper" then { acc with sleeper := acc.sleeper + duration }
  else if p.status = "driving" then { acc with driving := acc.driving + duration }
  else if p.status = "on_duty_not_driving" then
    { acc with on_duty_not_driving := acc.on_duty_not_driving + duration }
  else acc

/-- Embedding of `totalsFromPeriods`. -/
def totalsFromPeriods (periods : List NPeriod) : Totals :=
  periods.foldl addDuration ⟨0, 0, 0, 0⟩

/-- Sum of the four per-status totals. -/
def totalsSum (t : Totals) : ℚ :=
  t.off_duty + t.sleeper + t.driving + t.on_duty_not_driving

/-! ## The application component and the trip service -/

/-- The form state of the application component. -/
structure Form where
  currentLocation : String
  pickupLocation : String
  dropoffLocation : String
  currentCycleUsed : String

/-- A stored trip plan, reduced to the only field the frontend logic
inspects: its `plan_id`. -/
structure TripPlan where
  plan_id : ℤ
deriving DecidableEq

/-- The request body posted by `planTrip` in the trip service. -/
structure PlanRequest where
  current_location : String
  pickup_location : String
  dropoff_location : String
  current_cycle_used : ℚ
  cycle_rule : String
  adverse_driving_conditions : Bool
  short_haul_mode : String
  use_16_hour_exception : Bool
  used_16_hour_in_last_7_days : Bool
  return_to_reporting_location : Bool
  enable_34h_restart : Bool
deriving DecidableEq

/-- Embedding of the request construction in `planTrip` of the trip
service. `pf` models `parseFloat`, with `none` for `NaN`; then
`parseFloat(v) || 0` is `(pf v).getD 0` (a parsed `0` is falsy and is
replaced by the same value `0`). -/
def planTrip (pf : String → Option ℚ) (form : Form) : PlanRequest :=
  { current_location := form.currentLocation
    pickup_location := form.pickupLocation
    dropoff_location := form.dropoffLocation
    current_cycle_used := (pf form.currentCycleUsed).getD 0
    cycle_rule := "70_8"
    adverse_driving_conditions := false
    short_haul_mode := "none"
    use_16_hour_exception := false
    used_16_hour_in_last_7_days := false
    return_to_reporting_location := true
    enable_34h_restart := true }

/-- Embedding of `isCoordinatePair(value)`: split at commas, trim both
parts, require exactly two parts, both parsing (`num` models `Number`,
`none` for a non-finite result) to values within latitude/longitude bounds. -/
def isCoordinatePair (num : String → Option ℚ) (value : String) : Bool :=
  let parts := (jsSplit ',' value).map jsTrim
  match parts with
  | [p0, p1] =>
    match num p0, num p1 with
    | some lat, some lng =>
      decide (-90 ≤ lat) && decide (lat ≤ 90) && decide (-180 ≤ lng) && decide (lng ≤ 180)
    | _, _ => false
  | _ => false

/-- The result of one `handleSubmit` invocation: either a validation (or
transport) error message, or the request handed to `planTrip`. -/
inductive SubmitOutcome where
  | err (message : String)
  | send (request : PlanRequest)
deriving DecidableEq

/-- The `cycleUsed` value computed at the top of `handleSubmit`: the trimmed
field, with the empty string read as `0` and anything else given to
`Number.parseFloat` (modelled by `pf`). -/
def cycleUsedOf (pf : String → Option ℚ) (raw : String) : Option ℚ :=
  if jsTrim raw = "" then some 0 else pf (jsTrim raw)

/-- The guard `Number.isNaN(cycleUsed) || cycleUsed < 0 || cycleUsed > 70`
on the `Option` model of `cycleUsed` (`none` is `NaN`). -/
def cycleOutOfRange (o : Option ℚ) : Prop :=
  o.elim True (fun c => c < 0 ∨ 70 < c)

instance : (o : Option ℚ) → Decidable (cycleOutOfRange o)
  | none => .isTrue trivial
  | some c => inferInstanceAs (Decidable (c < 0 ∨ 70 < c))

/-- Embedding of the synchronous validation logic of `handleSubmit`: the
three emptiness checks, the three `isCoordinatePair` checks, then the
`cycleUsed` range check; only when all pass is the `planTrip` request
issued. -/
def handleSubmit (num pf : String → Option ℚ) (form : Form) : SubmitOutcome :=
  if jsTrim form.currentLocation = "" ∨ jsTrim form.pickupLocation = "" ∨
      jsTrim form.dropoffLocation = "" then
    .err "Please fill in all three locations."
  else if isCoordinatePair num form.currentLocation = false ∨
      isCoordinatePair num form.pickupLocation = false ∨
      isCoordinatePair num form.dropoffLocation = false then
    .err "Use coordinates in lat,lng format for all three locations."
  else if cycleOutOfRange (cycleUsedOf pf form.currentCycleUsed) then
    .err "Current Cycle Used must be a number between 0 and 70."
  else .send (planTrip pf form)

/-- The saved-plans update applied on a successful response:
`[data, ...prev.filter((p) => p.plan_id !== data.plan_id)].slice(0, 10)`. -/
def updatePlans (data : TripPlan) (prev : List TripPlan) : List TripPlan :=
  (data :: prev.filter (fun p => p.plan_id ≠ data.plan_id)).take 10

/-- The application state touched by `handleSubmit`. -/
structure AppState where
  tripData : Option TripPlan
  tripPlans : List TripPlan
  error : Option String

/-- The state update performed by `handleSubmit`: a validation error only
sets the error message; a sent request (with the server's `response`)
replaces `tripData`, prepends the response to the deduplicated saved-plans
list, and clears the error. -/
def applyOutcome (state : AppState) (o : SubmitOutcome) (response : TripPlan) : AppState :=
  match o with
  | .err m => { state with error := some m }
  | .send _ =>
    { tripData := some response
      tripPlans := updatePlans response state.tripPlans
      error := none }

/-! ## Spec-modelled HOS cycle accounting (backend engine) -/

/-- Modelled from the spec: the backend `HOSClock`/`ScheduleSimulator` code
(the Django service) is not among the sources here, so the regulatory
counters of §3 `CycleState` are modelled from the specification text. -/
structure CycleState where
  drive_hours_since_break : ℚ
  on_duty_window_elapsed : ℚ
  cycle_hours_used : ℚ
  absolute_hour : ℚ

/-- Modelled from the spec: `cycle_limit = 70` for `70_8` and `60` for
`60_7` (an unrecognised rule is rejected before simulation starts). -/
def cycleLimit (cycle_rule : String) : ℚ :=
  if cycle_rule = "60_7" then 60 else 70

/-- Modelled from the spec: `cycleHasCapacity(d)` of §4.1, true iff
`cycle_hours_used + d ≤ cycle_limit`. -/
def cycleHasCapacity (limit : ℚ) (s : CycleState) (d : ℚ) : Prop :=
  s.cycle_hours_used + d ≤ limit

/-- Modelled from the spec: one step of the `ScheduleSimulator` timeline,
restricted to the cycle accounting of §4.1–§4.2. `duty` covers driving and
on-duty (not driving) periods, both of which accrue cycle hours and are
only scheduled when `cycleHasCapacity` holds (StopPolicy rule 3 is
conservative: it never allows a departure that would exceed the weekly
cap). `off` covers off-duty/sleeper periods shorter than 34 hours (or with
the restart disabled), which leave `cycle_hours_used` unchanged.
`restart34` is a consecutive off-duty period of at least 34 hours with
`enable_34h_restart` set, which zeroes `cycle_hours_used`. -/
inductive SimStep (limit : ℚ) (enable34 : Bool) : CycleState → CycleState → Prop
  | duty (s : CycleState) (d : ℚ) (hd : 0 ≤ d) (hcap : cycleHasCapacity limit s d) :
      SimStep limit enable34 s
        { s with
          cycle_hours_used := s.cycle_hours_used + d
          on_duty_window_elapsed := s.on_duty_window_elapsed + d
          absolute_hour := s.absolute_hour + d }
  | off (s : CycleState) (d : ℚ) (hd : 0 ≤ d) (hno : ¬(enable34 = true ∧ 34 ≤ d)) :
      SimStep limit enable34 s
        { s with
          drive_hours_since_break := 0
          absolute_hour := s.absolute_hour + d }
  | restart34 (s : CycleState) (d : ℚ) (h34 : 34 ≤ d) (he : enable34 = true) :
      SimStep limit enable34 s
        { drive_hours_since_break := 0
          on_duty_window_elapsed := 0
          cycle_hours_used := 0
          absolute_hour := s.absolute_hour + d }

/-- Modelled from the spec: a reachable timeline state is one obtained from
the seeded `CycleState` by finitely many simulator steps. -/
def SimReachable (limit : ℚ) (enable34 : Bool) : CycleState → CycleState → Prop :=
  Relation.ReflTransGen (SimStep limit enable34)

/-! ## Auxiliary specification-side definitions -/

/-- `ChainFrom a l`: the periods of `l` tile `[a, 24]` contiguously, each
with positive width. -/
def ChainFrom : ℚ → List NPeriod → Prop
  | a, [] => a = 24
  | a, p :: rest => p.start = a ∧ a < p.endHour ∧ ChainFrom p.endHour rest

/-- The entered Current Cycle Used text is rejected: its parse is `NaN`
(`none`), or a negative number, or a number above 70. -/
def cycleRejected (o : Option ℚ) : Prop :=
  o = none ∨ ∃ c, o = some c ∧ (c < 0 ∨ 70 < c)

/-! ## Helper lemmas: hour clamping and the period chain -/

lemma clampHour_nonneg (h : ℚ) : 0 ≤ clampHour h :=
  le_max_left 0 _

lemma clampHour_le (h : ℚ) : clampHour h ≤ 24 :=
  max_le (by norm_num) (min_le_left _ _)

lemma chainFrom_le {l : List NPeriod} : ∀ {a : ℚ}, ChainFrom a l → a ≤ 24 := by
  induction l with
  | nil => intro a h; exact le_of_eq h
  | cons p rest ih =>
    intro a h
    obtain ⟨_, hlt, hrest⟩ := h
    exact le_of_lt (lt_of_lt_of_le hlt (ih hrest))

lemma chainFrom_bounds {l : List NPeriod} : ∀ {a : ℚ}, ChainFrom a l →
    ∀ p ∈ l, a ≤ p.start ∧ p.start < p.endHour ∧ p.endHour ≤ 24 := by
  induction l with
  | nil => intro a _ p hp; exact absurd hp (List.not_mem_nil p)
  | cons q rest ih =>
    intro a h p hp
    obtain ⟨hs, hlt, hrest⟩ := h
    rcases List.mem_cons.mp hp with rfl | hp'
    · exact ⟨le_of_eq hs.symm, hs ▸ hlt, chainFrom_le hrest⟩
    · obtain ⟨h1, h2, h3⟩ := ih hrest p hp'
      exact ⟨le_trans (le_of_lt hlt) h1, h2, h3⟩

lemma chainFrom_head {l : List NPeriod} {a : ℚ} (h : ChainFrom a l) :
    ∀ p, l.head? = some p → p.start = a := by
  cases l with
  | nil => intro p hp; exact absurd hp (by simp)
  | cons q rest =>
    intro p hp
    obtain rfl : q = p := by simpa using hp
    exact h.1

lemma chainFrom_last {l : List NPeriod} : ∀ {a : ℚ}, ChainFrom a l →
    ∀ p, l.getLast? = some p → p.endHour = 24 := by
  induction l with
  | nil => intro a _ p hp; exact absurd hp (by simp)
  | cons q rest ih =>
    intro a h p hp
    obtain ⟨_, _, hrest⟩ := h
    cases rest with
    | nil =>
      obtain rfl : q = p := by simpa using hp
      exact hrest
    | cons r rest' =>
      exact ih hrest p (by simpa [List.getLast?_cons_cons] using hp)

lemma chainFrom_chain' {l : List NPeriod} : ∀ {a : ℚ}, ChainFrom a l →
    List.Chain' (fun p q => p.endHour = q.start) l := by
  induction l with
  | nil => intro a _; exact List.chain'_nil
  | cons q rest ih =>
    intro a h
    obtain ⟨_, _, hrest⟩ := h
    cases rest with
    | nil => exact List.chain'_singleton q
    | cons r rest' =>
      exact List.chain'_cons.mpr ⟨hrest.1.symm, ih hrest⟩

lemma chainFrom_sum {l : List NPeriod} : ∀ {a : ℚ}, ChainFrom a l →
    (l.map (fun p => p.endHour - p.start)).sum = 24 - a := by
  induction l with
  | nil =>
    intro a h
    have h' : a = 24 := h
    simp [h']
  | cons q rest ih =>
    intro a h
    obtain ⟨hs, _, hrest⟩ := h
    simp only [List.map_cons, List.sum_cons, ih hrest, hs]
    ring

/-! ## Helper lemmas: the gap-filling pass and `normalizePeriods` -/

lemma withFullDayCoverage_chain (l : List NPeriod) : ∀ cursor : ℚ, cursor ≤ 24 →
    (∀ p ∈ l, p.start ≤ 24 ∧ p.endHour ≤ 24 ∧ p.start < p.endHour) →
    ChainFrom cursor (withFullDayCoverage cursor l) := by
  induction l with
  | nil =>
    intro cursor hc _
    unfold withFullDayCoverage
    by_cases h : cursor < 24
    · rw [if_pos h]
      exact ⟨rfl, h, rfl⟩
    · rw [if_neg h]
      exact le_antisymm hc (not_lt.mp h)
  | cons q rest ih =>
    intro cursor hc hmem
    obtain ⟨hqs, hqe, hqlt⟩ := hmem q (List.mem_cons_self q rest)
    have hrest : ∀ p ∈ rest, p.start ≤ 24 ∧ p.endHour ≤ 24 ∧ p.start < p.endHour :=
      fun p hp => hmem p (List.mem_cons_of_mem q hp)
    simp only [withFullDayCoverage]
    by_cases hse : max cursor q.start < max (max cursor q.start) q.endHour
    · have he24 : max (max cursor q.start) q.endHour ≤ 24 :=
        max_le (max_le hc hqs) hqe
      by_cases hgap : cursor < max cursor q.start
      · rw [if_pos hse, if_pos hgap]
        exact ⟨rfl, hgap, rfl, hse, ih _ he24 hrest⟩
      · have hmaxc : max cursor q.start = cursor :=
          le_antisymm (not_lt.mp hgap) (le_max_left cursor q.start)
        rw [if_pos hse, if_neg hgap, List.nil_append]
        refine ⟨hmaxc, ?_, ih _ he24 hrest⟩
        calc cursor = max cursor q.start := hmaxc.symm
      _ < max (max cursor q.start) q.endHour := hse
    · have hqc : q.start ≤ cursor := by
        by_contra hgt
        push_neg at hgt
        have h1 : max cursor q.start = q.start := max_eq_right (le_of_lt hgt)
        apply hse
        rw [h1]
        exact lt_of_lt_of_le hqlt (le_max_right q.start q.endHour)
      have hmaxc : max cursor q.start = cursor := max_eq_left hqc
      have hgap : ¬ cursor < max cursor q.start := by
        rw [hmaxc]; exact lt_irrefl cursor
      rw [if_neg hse, if_neg hgap, List.nil_append]
      exact ih cursor hc hrest

lemma withFullDayCoverage_status (l : List NPeriod) : ∀ (cursor : ℚ) (p : NPeriod),
    p ∈ withFullDayCoverage cursor l →
    p.status = "off_duty" ∨ ∃ q ∈ l, p.status = q.status := by
  induction l with
  | nil =>
    intro cursor p hp
    unfold withFullDayCoverage at hp
    by_cases h : cursor < 24
    · rw [if_pos h] at hp
      obtain rfl : p = ⟨cursor, 24, "off_duty"⟩ := by simpa using hp
      exact Or.inl rfl
    · rw [if_neg h] at hp
      exact absurd hp (List.not_mem_nil p)
  | cons q rest ih =>
    intro cursor p hp
    simp only [withFullDayCoverage] at hp
    rcases List.mem_append.mp hp with h | h
    · by_cases hgap : cursor < max cursor q.start
      · rw [if_pos hgap] at h
        obtain rfl : p = ⟨cursor, max cursor q.start, "off_duty"⟩ := by simpa using h
        exact Or.inl rfl
      · rw [if_neg hgap] at h
        exact absurd h (List.not_mem_nil p)
    · by_cases hse : max cursor q.start < max (max cursor q.start) q.endHour
      · rw [if_pos hse] at h
        rcases List.mem_cons.mp h with rfl | h'
        · exact Or.inr ⟨q, List.mem_cons_self q rest, rfl⟩
        · rcases ih _ p h' with hoff | ⟨r, hr, hpr⟩
          · exact Or.inl hoff
          · exact Or.inr ⟨r, List.mem_cons_of_mem q hr, hpr⟩
      · rw [if_neg hse] at h
        rcases ih _ p h with hoff | ⟨r, hr, hpr⟩
        · exact Or.inl hoff
        · exact Or.inr ⟨r, List.mem_cons_of_mem q hr, hpr⟩

lemma expandPeriod_mem {q : RawPeriod} {p : NPeriod} (hp : p ∈ expandPeriod q) :
    statusRecognized p.status = true ∧ p.status = q.status ∧ 0 ≤ p.start ∧
      p.start < p.endHour ∧ p.endHour ≤ 24 := by
  unfold expandPeriod at hp
  by_cases hrec : statusRecognized q.status = true
  · rw [if_pos hrec] at hp
    by_cases hlt : clampHour q.start_hour_of_day < clampHour q.end_hour_of_day
    · rw [if_pos hlt] at hp
      obtain rfl : p = ⟨clampHour q.start_hour_of_day, clampHour q.end_hour_of_day, q.status⟩ := by
        simpa using hp
      exact ⟨hrec, rfl, clampHour_nonneg _, hlt, clampHour_le _⟩
    · rw [if_neg hlt] at hp
      rcases List.mem_append.mp hp with h | h
      · by_cases h24 : clampHour q.start_hour_of_day < 24
        · rw [if_pos h24] at h
          obtain rfl : p = ⟨clampHour q.start_hour_of_day, 24, q.status⟩ := by simpa using h
          exact ⟨hrec, rfl, clampHour_nonneg _, h24, le_refl _⟩
        · rw [if_neg h24] at h
          exact absurd h (List.not_mem_nil p)
      · by_cases h0 : 0 < clampHour q.end_hour_of_day
        · rw [if_pos h0] at h
          obtain rfl : p = ⟨0, clampHour q.end_hour_of_day, q.status⟩ := by simpa using h
          exact ⟨hrec, rfl, le_refl 0, h0, clampHour_le _⟩
        · rw [if_neg h0] at h
          exact absurd h (List.not_mem_nil p)
  · rw [if_neg hrec] at hp
    exact absurd hp (List.not_mem_nil p)

lemma normalizePeriods_chainFrom (periods : List RawPeriod) :
    ChainFrom 0 (normalizePeriods periods) := by
  unfold normalizePeriods
  by_cases h : (List.insertionSort sortLe (periods.flatMap expandPeriod)).isEmpty = true
  · rw [if_pos h]
    exact ⟨rfl, by norm_num, rfl⟩
  · rw [if_neg h]
    apply withFullDayCoverage_chain _ 0 (by norm_num)
    intro p hp
    have hp' : p ∈ periods.flatMap expandPeriod :=
      ((List.perm_insertionSort sortLe _).mem_iff).mp hp
    obtain ⟨q, _, hpq⟩ := List.mem_flatMap.mp hp'
    obtain ⟨_, _, h0, hlt, h24⟩ := expandPeriod_mem hpq
    exact ⟨le_of_lt (lt_of_lt_of_le hlt h24), h24, hlt⟩

/-! ## Helper lemmas: status keys and totals -/

lemma statusByKey_isSome_iff (s : String) :
    (statusByKey s).isSome = true ↔
      s = "off_duty" ∨ s = "sleeper" ∨ s = "driving" ∨ s = "on_duty_not_driving" := by
  constructor
  · intro h
    by_contra hc
    push_neg at hc
    obtain ⟨h1, h2, h3, h4⟩ := hc
    have e1 : ("off_duty" == s) = false := beq_eq_false_iff_ne.mpr (fun he => h1 he.symm)
    have e2 : ("sleeper" == s) = false := beq_eq_false_iff_ne.mpr (fun he => h2 he.symm)
    have e3 : ("driving" == s) = false := beq_eq_false_iff_ne.mpr (fun he => h3 he.symm)
    have e4 : ("on_duty_not_driving" == s) = false :=
      beq_eq_false_iff_ne.mpr (fun he => h4 he.symm)
    simp [statusByKey, STATUS_ROWS, List.find?, e1, e2, e3, e4] at h
  · rintro (rfl | rfl | rfl | rfl) <;> decide

lemma statusRecognized_of_isSome {s : String} (h : (statusByKey s).isSome = true) :
    statusRecognized s = true := by
  unfold statusRecognized
  rw [h, Bool.true_or]

lemma statusRecognized_eq_isSome {s : String} (h : s ∉ OBJECT_PROTOTYPE_KEYS) :
    statusRecognized s = (statusByKey s).isSome := by
  unfold statusRecognized
  have hc : OBJECT_PROTOTYPE_KEYS.contains s = false := by
    simpa using h
  rw [hc, Bool.or_false]

lemma addDuration_totalsSum (acc : Totals) (p : NPeriod)
    (h : (statusByKey p.status).isSome = true) :
    totalsSum (addDuration acc p) = totalsSum acc + max 0 (p.endHour - p.start) := by
  rcases (statusByKey_isSome_iff p.status).mp h with h' | h' | h' | h' <;>
    simp [addDuration, totalsSum, h'] <;> ring

lemma totalsSum_foldl (l : List NPeriod) : ∀ acc : Totals,
    (∀ p ∈ l, (statusByKey p.status).isSome = true) →
    totalsSum (List.foldl addDuration acc l)
      = totalsSum acc + (l.map (fun p => max 0 (p.endHour - p.start))).sum := by
  induction l with
  | nil => intro acc _; simp
  | cons p rest ih =>
    intro acc h
    simp only [List.foldl_cons, List.map_cons, List.sum_cons]
    rw [ih _ (fun q hq => h q (List.mem_cons_of_mem p hq)),
      addDuration_totalsSum acc p (h p (List.mem_cons_self p rest))]
    ring

lemma normalizePeriods_status (periods : List RawPeriod)
    (hproto : ∀ p ∈ periods, p.status ∉ OBJECT_PROTOTYPE_KEYS) :
    ∀ p ∈ normalizePeriods periods, (statusByKey p.status).isSome = true := by
  intro p hp
  unfold normalizePeriods at hp
  by_cases h : (List.insertionSort sortLe (periods.flatMap expandPeriod)).isEmpty = true
  · rw [if_pos h] at hp
    obtain rfl : p = ⟨0, 24, "off_duty"⟩ := by simpa using hp
    decide
  · rw [if_neg h] at hp
    rcases withFullDayCoverage_status _ _ p hp with hoff | ⟨q, hq, hpq⟩
    · rw [hoff]; decide
    · have hq' : q ∈ periods.flatMap expandPeriod :=
        ((List.perm_insertionSort sortLe _).mem_iff).mp hq
      obtain ⟨r, hr, hqr⟩ := List.mem_flatMap.mp hq'
      obtain ⟨hrec, hstat, _⟩ := expandPeriod_mem hqr
      rw [hpq, hstat, ← statusRecognized_eq_isSome (hproto r hr), ← hstat]
      exact hrec

/-! ## Claim theorems -/

/-- C1 (amended): for every list of day-log periods none of whose statuses
is an inherited `Object.prototype` property name, the four per-status totals
computed by `totalsFromPeriods` over `normalizePeriods periods` sum to
exactly 24 hours, gaps having been filled with `off_duty` padding. The
restriction is necessary: a status such as `toString` passes the program's
truthy prototype-chain lookup, survives into the output, and accrues its
duration outside the four tracked totals (see the counterexample below). -/
theorem totalsFromPeriods_sum_24 (periods : List RawPeriod)
    (hproto : ∀ p ∈ periods, p.status ∉ OBJECT_PROTOTYPE_KEYS) :
    totalsSum (totalsFromPeriods (normalizePeriods periods)) = 24 := by
  have hchain := normalizePeriods_chainFrom periods
  have hstat := normalizePeriods_status periods hproto
  unfold totalsFromPeriods
  rw [totalsSum_foldl _ _ hstat]
  have hmap : (normalizePeriods periods).map (fun p => max 0 (p.endHour - p.start))
      = (normalizePeriods periods).map (fun p => p.endHour - p.start) := by
    apply List.map_congr_left
    intro p hp
    have hlt := (chainFrom_bounds hchain p hp).2.1
    exact max_eq_right (by linarith)
  rw [hmap, chainFrom_sum hchain]
  simp [totalsSum]

/-- Witness for C1: an ordinary `driving` period from 3:00 to 5:00 (no
prototype-key status), whose normalised day totals 24 hours. -/
theorem totalsFromPeriods_sum_24_witness :
    totalsSum (totalsFromPeriods (normalizePeriods [⟨"driving", 3, 5⟩])) = 24 :=
  totalsFromPeriods_sum_24 [⟨"driving", 3, 5⟩] (by decide)

/-- Counterexample for C1 as stated: the status `toString` is an inherited
`Object.prototype` property, so `STATUS_BY_KEY["toString"]` is truthy and
the period `{status: "toString", 0, 24}` is kept by `normalizePeriods`;
`totalsFromPeriods` then accrues its 24 hours outside the four tracked
totals, which sum to 0, not 24. -/
theorem totalsFromPeriods_protoStatus_zero :
    totalsSum (totalsFromPeriods (normalizePeriods [⟨"toString", 0, 24⟩])) = 0
    ∧ totalsSum (totalsFromPeriods (normalizePeriods [⟨"toString", 0, 24⟩])) ≠ 24 := by
  have h1 : normalizePeriods [⟨"toString", (0 : ℚ), 24⟩] = [⟨0, 24, "toString"⟩] := by
    decide
  have h2 : totalsFromPeriods [(⟨0, 24, "toString"⟩ : NPeriod)] = ⟨0, 0, 0, 0⟩ := by
    unfold totalsFromPeriods
    simp [addDuration]
  rw [h1, h2]
  unfold totalsSum
  norm_num

/-- C2: `normalizePeriods` always returns a contiguous, non-overlapping,
gap-free partition of the day: the output is non-empty, every period has
`0 ≤ start < end ≤ 24`, the first period starts at 0, the last ends at 24,
and each period starts where the previous one ends. -/
theorem normalizePeriods_partition (periods : List RawPeriod) :
    normalizePeriods periods ≠ []
    ∧ (∀ p ∈ normalizePeriods periods, 0 ≤ p.start ∧ p.start < p.endHour ∧ p.endHour ≤ 24)
    ∧ (∀ p, (normalizePeriods periods).head? = some p → p.start = 0)
    ∧ (∀ p, (normalizePeriods periods).getLast? = some p → p.endHour = 24)
    ∧ List.Chain' (fun p q => p.endHour = q.start) (normalizePeriods periods) := by
  have hchain := normalizePeriods_chainFrom periods
  refine ⟨?_, ?_, ?_, ?_, ?_⟩
  · intro hnil
    rw [hnil] at hchain
    have h24 : (0 : ℚ) = 24 := hchain
    norm_num at h24
  · intro p hp
    exact chainFrom_bounds hchain p hp
  · exact chainFrom_head hchain
  · exact chainFrom_last hchain
  · exact chainFrom_chain' hchain

/-- Witness for C2: on the empty input, `normalizePeriods` produces the
single full-day `off_duty` period, whose start hour the theorem pins to 0. -/
theorem normalizePeriods_partition_witness :
    NPeriod.start ⟨0, 24, "off_duty"⟩ = 0 :=
  (normalizePeriods_partition []).2.2.1 ⟨0, 24, "off_duty"⟩ rfl

/-- C8: an input period with a recognised status whose clamped end does not
exceed its clamped start is split across midnight rather than discarded:
`normalizePeriods`'s expansion emits a period from the clamped start to 24
(when the start is before 24) and a period from 0 to the clamped end (when
the end is after 0), both with the original status. -/
theorem expandPeriod_midnight_split (p : RawPeriod)
    (hrec : (statusByKey p.status).isSome = true)
    (hle : clampHour p.end_hour_of_day ≤ clampHour p.start_hour_of_day) :
    expandPeriod p =
      (if clampHour p.start_hour_of_day < 24 then
        [⟨clampHour p.start_hour_of_day, 24, p.status⟩] else []) ++
      (if 0 < clampHour p.end_hour_of_day then
        [⟨0, clampHour p.end_hour_of_day, p.status⟩] else []) := by
  unfold expandPeriod
  rw [if_pos (statusRecognized_of_isSome hrec), if_neg (not_lt.mpr hle)]

/-- Witness for C8: a `driving` period entered as 22:00 → 06:00 becomes the
two periods 22–24 and 0–6, both `driving`. -/
theorem expandPeriod_midnight_split_witness :
    expandPeriod ⟨"driving", 22, 6⟩ =
      (if clampHour (22 : ℚ) < 24 then [⟨clampHour (22 : ℚ), 24, "driving"⟩] else []) ++
      (if 0 < clampHour (6 : ℚ) then [⟨0, clampHour (6 : ℚ), "driving"⟩] else []) :=
  expandPeriod_midnight_split ⟨"driving", 22, 6⟩ (by decide) (by decide)

lemma expandPeriod_eq_nil {q : RawPeriod}
    (h : statusRecognized q.status = false) : expandPeriod q = [] := by
  unfold expandPeriod
  rw [if_neg]
  simp [h]

lemma flatMap_expand_filter (periods : List RawPeriod) :
    periods.flatMap expandPeriod
      = (periods.filter (fun p => statusRecognized p.status)).flatMap expandPeriod := by
  induction periods with
  | nil => rfl
  | cons q rest ih =>
    by_cases h : statusRecognized q.status = true
    · simp [List.filter_cons, h, ih]
    · have h' : statusRecognized q.status = false := by
        simpa using h
      simp [List.filter_cons, h', expandPeriod_eq_nil h', ih]

/-- C10 (amended): `normalizePeriods` drops every input period whose status
makes the prototype-chain lookup `STATUS_BY_KEY[status]` falsy — that is,
whose status is neither one of the four duty statuses nor an inherited
`Object.prototype` property name — and its output only depends on the kept
periods; when every period is dropped the whole day is rendered as
`off_duty` padding. A status such as `toString` is NOT dropped (see the
counterexample below). -/
theorem normalizePeriods_drops_unrecognized (periods : List RawPeriod) :
    normalizePeriods periods
        = normalizePeriods (periods.filter (fun p => statusRecognized p.status))
    ∧ ((∀ p ∈ periods, statusRecognized p.status = false) →
        normalizePeriods periods = [⟨0, 24, "off_duty"⟩]) := by
  constructor
  · unfold normalizePeriods
    rw [flatMap_expand_filter]
  · intro hall
    have hnil : periods.flatMap expandPeriod = [] := by
      rw [flatMap_expand_filter]
      have : periods.filter (fun p => statusRecognized p.status) = [] := by
        rw [List.filter_eq_nil_iff]
        intro p hp
        simp [hall p hp]
      rw [this]
      rfl
    unfold normalizePeriods
    rw [hnil]
    rfl

/-- Witness for C10: a single period with the status `yard_move` — neither
a duty status nor an `Object.prototype` key — yields the all-`off_duty`
day. -/
theorem normalizePeriods_drops_unrecognized_witness :
    normalizePeriods [⟨"yard_move", 3, 5⟩] = [⟨0, 24, "off_duty"⟩] :=
  (normalizePeriods_drops_unrecognized [⟨"yard_move", 3, 5⟩]).2 (by decide)

/-- Counterexample for C10 as stated: a period whose status is `toString` —
not one of the four duty statuses — is NOT dropped: the inherited
`Object.prototype.toString` makes the lookup truthy, so the period survives
into the output instead of being replaced by `off_duty` padding. -/
theorem normalizePeriods_keeps_protoStatus :
    normalizePeriods [⟨"toString", (0 : ℚ), 24⟩] = [⟨0, 24, "toString"⟩]
    ∧ normalizePeriods [⟨"toString", (0 : ℚ), 24⟩] ≠ [⟨0, 24, "off_duty"⟩] := by
  constructor <;> decide

/-- C9: after a successful plan submission the saved-plans update puts the
returned plan first, keeps at most 10 entries, only keeps earlier entries
whose `plan_id` differs from the new plan's, and preserves distinctness of
the stored `plan_id`s. -/
theorem updatePlans_invariant (data : TripPlan) (prev : List TripPlan) :
    (updatePlans data prev).head? = some data
    ∧ (updatePlans data prev).length ≤ 10
    ∧ (∀ p ∈ updatePlans data prev, p = data ∨ (p ∈ prev ∧ p.plan_id ≠ data.plan_id))
    ∧ ((prev.map TripPlan.plan_id).Nodup →
        ((updatePlans data prev).map TripPlan.plan_id).Nodup) := by
  refine ⟨rfl, ?_, ?_, ?_⟩
  · unfold updatePlans
    rw [List.length_take]
    exact min_le_left _ _
  · intro p hp
    have hp' : p ∈ data :: prev.filter (fun q => q.plan_id ≠ data.plan_id) :=
      List.take_subset _ _ hp
    rcases List.mem_cons.mp hp' with rfl | h
    · exact Or.inl rfl
    · have h' := List.mem_filter.mp h
      exact Or.inr ⟨h'.1, by simpa using h'.2⟩
  · intro hnd
    have hsub := (List.take_sublist 10
      (data :: prev.filter (fun q => q.plan_id ≠ data.plan_id))).map TripPlan.plan_id
    apply List.Nodup.sublist hsub
    simp only [List.map_cons, List.nodup_cons]
    constructor
    · intro hmem
      obtain ⟨p, hp, hpe⟩ := List.mem_map.mp hmem
      have h2 := (List.mem_filter.mp hp).2
      simp only [ne_eq, decide_not, Bool.not_eq_true', decide_eq_false_iff_not] at h2
      exact h2 hpe
    · exact List.Nodup.sublist ((List.filter_sublist _).map TripPlan.plan_id) hnd

/-- Witness for C9: updating the one-element list `[plan 1]` with the new
plan 2 yields a list with pairwise-distinct plan ids. -/
theorem updatePlans_invariant_witness :
    ((updatePlans ⟨2⟩ [⟨1⟩]).map TripPlan.plan_id).Nodup :=
  (updatePlans_invariant ⟨2⟩ [⟨1⟩]).2.2.2 (by decide)

/-- C3: a non-empty Current Cycle Used entry that parses to `NaN`, to a
negative number, or to a number above 70 makes `handleSubmit` produce an
error outcome — no planning request is issued and `tripData` and the
saved-plans list are left unchanged — while an empty entry is read as 0 and
passes the cycle check (so valid locations then yield a request). -/
theorem handleSubmit_cycle_guard (num pf : String → Option ℚ) (form : Form) :
    (jsTrim form.currentCycleUsed ≠ "" →
      cycleRejected (pf (jsTrim form.currentCycleUsed)) →
      ∃ msg, handleSubmit num pf form = .err msg
        ∧ ∀ state response,
            (applyOutcome state (handleSubmit num pf form) response).tripData
                = state.tripData
            ∧ (applyOutcome state (handleSubmit num pf form) response).tripPlans
                = state.tripPlans)
    ∧ (jsTrim form.currentCycleUsed = "" →
        cycleUsedOf pf form.currentCycleUsed = some 0
        ∧ (¬(jsTrim form.currentLocation = "" ∨ jsTrim form.pickupLocation = "" ∨
              jsTrim form.dropoffLocation = "") →
           ¬(isCoordinatePair num form.currentLocation = false ∨
              isCoordinatePair num form.pickupLocation = false ∨
              isCoordinatePair num form.dropoffLocation = false) →
           handleSubmit num pf form = .send (planTrip pf form))) := by
  constructor
  · intro hne hrej
    obtain ⟨msg, hm⟩ : ∃ msg, handleSubmit num pf form = .err msg := by
      unfold handleSubmit
      split_ifs with h1 h2 h3
      · exact ⟨_, rfl⟩
      · exact ⟨_, rfl⟩
      · exact ⟨_, rfl⟩
      · exfalso
        apply h3
        unfold cycleOutOfRange cycleUsedOf
        rw [if_neg hne]
        rcases hrej with hnone | ⟨c, hc, hbad⟩
        · rw [hnone]; trivial
        · rw [hc]; exact hbad
    refine ⟨msg, hm, ?_⟩
    intro state response
    rw [hm]
    exact ⟨rfl, rfl⟩
  · intro hemp
    have hcy : cycleUsedOf pf form.currentCycleUsed = some 0 := by
      unfold cycleUsedOf
      rw [if_pos hemp]
    refine ⟨hcy, ?_⟩
    intro h1 h2
    unfold handleSubmit
    rw [if_neg h1, if_neg h2, if_neg]
    rw [hcy]
    unfold cycleOutOfRange
    norm_num

/-- Witness for C3: with the entry "80" (parsing to 80 > 70) the submission
is rejected and the application state is untouched. -/
theorem handleSubmit_cycle_guard_witness :
    ∃ msg, handleSubmit (fun _ => none) (fun s => if s = "80" then some 80 else none)
        ⟨"1,2", "3,4", "5,6", "80"⟩ = .err msg
      ∧ ∀ state response,
          (applyOutcome state
              (handleSubmit (fun _ => none) (fun s => if s = "80" then some 80 else none)
                ⟨"1,2", "3,4", "5,6", "80"⟩) response).tripData = state.tripData
          ∧ (applyOutcome state
              (handleSubmit (fun _ => none) (fun s => if s = "80" then some 80 else none)
                ⟨"1,2", "3,4", "5,6", "80"⟩) response).tripPlans = state.tripPlans :=
  (handleSubmit_cycle_guard (fun _ => none) (fun s => if s = "80" then some 80 else none)
      ⟨"1,2", "3,4", "5,6", "80"⟩).1 (by decide)
    (Or.inr ⟨80, by decide, Or.inr (by decide)⟩)

/-- C4: a planning request is issued only when all three location strings
pass `isCoordinatePair`, and `isCoordinatePair` holds exactly when the
string splits at commas into two trimmed parts whose numeric values are
both finite, the first within [−90, 90] and the second within [−180, 180]. -/
theorem isCoordinatePair_gate (num pf : String → Option ℚ) (form : Form) :
    ((∃ req, handleSubmit num pf form = .send req) →
        isCoordinatePair num form.currentLocation = true
        ∧ isCoordinatePair num form.pickupLocation = true
        ∧ isCoordinatePair num form.dropoffLocation = true)
    ∧ (∀ value, isCoordinatePair num value = true ↔
        ∃ s t lat lng, (jsSplit ',' value).map jsTrim = [s, t]
          ∧ num s = some lat ∧ num t = some lng
          ∧ -90 ≤ lat ∧ lat ≤ 90 ∧ -180 ≤ lng ∧ lng ≤ 180) := by
  constructor
  · rintro ⟨req, hreq⟩
    unfold handleSubmit at hreq
    split_ifs at hreq with h1 h2 h3
    push_neg at h2
    obtain ⟨e1, e2, e3⟩ := h2
    exact ⟨by simpa using e1, by simpa using e2, by simpa using e3⟩
  · intro value
    unfold isCoordinatePair
    rcases hp : (jsSplit ',' value).map jsTrim with _ | ⟨p0, rest0⟩
    · simp [hp]
    · rcases rest0 with _ | ⟨p1, rest1⟩
      · simp [hp]
      · rcases rest1 with _ | ⟨p2, rest2⟩
        · rcases h0 : num p0 with _ | lat
          · simp [hp, h0]
          · rcases h1 : num p1 with _ | lng
            · simp [hp, h0, h1]
            · simp only [hp, h0, h1, Bool.and_eq_true, decide_eq_true_eq]
              constructor
              · rintro ⟨⟨⟨b1, b2⟩, b3⟩, b4⟩
                exact ⟨p0, p1, lat, lng, rfl, h0, h1, b1, b2, b3, b4⟩
              · rintro ⟨s, t, lat', lng', heq, hs, ht, b1, b2, b3, b4⟩
                obtain ⟨rfl, rfl⟩ : s = p0 ∧ t = p1 := by
                  simpa using heq.symm
                rw [h0] at hs
                rw [h1] at ht
                obtain rfl : lat = lat' := by simpa using hs
                obtain rfl : lng = lng' := by simpa using ht
                exact ⟨⟨⟨b1, b2⟩, b3⟩, b4⟩
        · simp [hp]

/-- Witness for C4: "10, 20" parses into two in-bounds coordinates, so
`isCoordinatePair` accepts it. -/
theorem isCoordinatePair_gate_witness :
    isCoordinatePair
        (fun s => if s = "10" then some 10 else if s = "20" then some 20 else none)
        "10, 20" = true :=
  ((isCoordinatePair_gate
        (fun s => if s = "10" then some 10 else if s = "20" then some 20 else none)
        (fun _ => none) ⟨"", "", "", ""⟩).2 "10, 20").mpr
    ⟨"10", "20", 10, 20, by decide, by decide, by decide,
      by decide, by decide, by decide, by decide⟩

/-- C5: every request built by `planTrip` fixes the seven documented
parameters and sends `current_cycle_used` as the parse of the entered text,
with a non-parseable entry sent as 0. -/
theorem planTrip_fixed_parameters (pf : String → Option ℚ) (form : Form) :
    (planTrip pf form).cycle_rule = "70_8"
    ∧ (planTrip pf form).adverse_driving_conditions = false
    ∧ (planTrip pf form).short_haul_mode = "none"
    ∧ (planTrip pf form).use_16_hour_exception = false
    ∧ (planTrip pf form).used_16_hour_in_last_7_days = false
    ∧ (planTrip pf form).return_to_reporting_location = true
    ∧ (planTrip pf form).enable_34h_restart = true
    ∧ (planTrip pf form).current_cycle_used = (pf form.currentCycleUsed).getD 0 :=
  ⟨rfl, rfl, rfl, rfl, rfl, rfl, rfl, rfl⟩

/-! ## Helper lemmas: the JavaScript remainder on non-negative input -/

lemma ratTrunc_of_nonneg {q : ℚ} (h : 0 ≤ q) : ratTrunc q = ⌊q⌋ :=
  if_pos h

lemma jsMod_eq_sub_floor {a b : ℚ} (ha : 0 ≤ a) (hb : 0 < b) :
    jsMod a b = a - b * (⌊a / b⌋ : ℚ) := by
  unfold jsMod
  rw [ratTrunc_of_nonneg (div_nonneg ha (le_of_lt hb))]

lemma jsMod_nonneg {a b : ℚ} (ha : 0 ≤ a) (hb : 0 < b) : 0 ≤ jsMod a b := by
  rw [jsMod_eq_sub_floor ha hb]
  have h1 : ((⌊a / b⌋ : ℚ)) ≤ a / b := Int.floor_le _
  have h2 : b * ((⌊a / b⌋ : ℚ)) ≤ b * (a / b) :=
    mul_le_mul_of_nonneg_left h1 (le_of_lt hb)
  have h3 : b * (a / b) = a := by
    field_simp
  linarith

lemma jsMod_lt {a b : ℚ} (ha : 0 ≤ a) (hb : 0 < b) : jsMod a b < b := by
  rw [jsMod_eq_sub_floor ha hb]
  have h1 : a / b < (⌊a / b⌋ : ℚ) + 1 := Int.lt_floor_add_one _
  have h2 : b * (a / b) < b * ((⌊a / b⌋ : ℚ) + 1) :=
    mul_lt_mul_of_pos_left h1 hb
  have h3 : b * (a / b) = a := by
    field_simp
  have h4 : b * ((⌊a / b⌋ : ℚ) + 1) = b * (⌊a / b⌋ : ℚ) + b := by
    ring
  linarith

/-- C6 (amended): for every absolute hour `h ≥ 0`, `formatTripTime` renders
`"Day "` followed by the 1-based day index `⌊h/24⌋ + 1`, the separator, and
`HH:MM` with `HH = ⌊h mod 24⌋` (between 0 and 23, zero-padded) and `MM` the
fractional hour rounded to whole minutes — the minute value lies between 0
and 60 inclusive, not 0 and 59: rounding up a fraction close to a full hour
renders the minute field as `60`. -/
theorem formatTripTime_components (h : ℚ) (h0 : 0 ≤ h) (sep : String) :
    1 ≤ ⌊h / 24⌋ + 1
    ∧ 0 ≤ ⌊jsMod h 24⌋ ∧ ⌊jsMod h 24⌋ ≤ 23
    ∧ 0 ≤ jsRound (jsMod (jsMod h 24) 1 * 60)
    ∧ jsRound (jsMod (jsMod h 24) 1 * 60) ≤ 60
    ∧ formatTripTime h sep
        = "Day " ++ intToString (⌊h / 24⌋ + 1) ++ sep
            ++ padStart2 (intToString ⌊jsMod h 24⌋) ++ ":"
            ++ padStart2 (intToString (jsRound (jsMod (jsMod h 24) 1 * 60))) := by
  have hm24 := jsMod_nonneg h0 (by norm_num : (0:ℚ) < 24)
  have hm24' := jsMod_lt h0 (by norm_num : (0:ℚ) < 24)
  have hm1 := jsMod_nonneg hm24 (by norm_num : (0:ℚ) < 1)
  have hm1' := jsMod_lt hm24 (by norm_num : (0:ℚ) < 1)
  refine ⟨?_, ?_, ?_, ?_, ?_, rfl⟩
  · have : (0:ℤ) ≤ ⌊h / 24⌋ := Int.floor_nonneg.mpr (by positivity)
    omega
  · exact Int.floor_nonneg.mpr hm24
  · have h24 : ⌊jsMod h 24⌋ < 24 := Int.floor_lt.mpr (by exact_mod_cast hm24')
    omega
  · unfold jsRound
    apply Int.floor_nonneg.mpr
    have : 0 ≤ jsMod (jsMod h 24) 1 * 60 := mul_nonneg hm1 (by norm_num)
    linarith
  · unfold jsRound
    rw [Int.floor_le_iff]
    push_cast
    nlinarith [hm1']

/-- Witness for C6: the amended rendering equation and bounds instantiated
at hour 3 with the default separator. -/
theorem formatTripTime_components_witness :
    1 ≤ ⌊(3:ℚ) / 24⌋ + 1
    ∧ 0 ≤ ⌊jsMod (3:ℚ) 24⌋ ∧ ⌊jsMod (3:ℚ) 24⌋ ≤ 23
    ∧ 0 ≤ jsRound (jsMod (jsMod (3:ℚ) 24) 1 * 60)
    ∧ jsRound (jsMod (jsMod (3:ℚ) 24) 1 * 60) ≤ 60
    ∧ formatTripTime 3 ", "
        = "Day " ++ intToString (⌊(3:ℚ) / 24⌋ + 1) ++ ", "
            ++ padStart2 (intToString ⌊jsMod (3:ℚ) 24⌋) ++ ":"
            ++ padStart2 (intToString (jsRound (jsMod (jsMod (3:ℚ) 24) 1 * 60))) :=
  formatTripTime_components 3 (by norm_num) ", "

/-- Counterexample for C6 as stated: at absolute hour 0.9999 the fractional
hour rounds to 60 minutes, so the rendered time is "00:60" — the minute
field is not in the range 00–59. -/
theorem formatTripTime_minute_sixty :
    formatTripTime (9999 / 10000) ", " = "Day 1, 00:60" := by
  have f0 : ⌊((9999 : ℚ) / 10000) / 24⌋ = 0 := by
    rw [Int.floor_eq_iff]
    constructor <;> norm_num
  have t0 : ratTrunc (((9999 : ℚ) / 10000) / 24) = 0 := by
    rw [ratTrunc_of_nonneg (by norm_num)]
    exact f0
  have m24 : jsMod ((9999 : ℚ) / 10000) 24 = 9999 / 10000 := by
    unfold jsMod
    rw [t0]
    norm_num
  have f1 : ⌊(9999 : ℚ) / 10000⌋ = 0 := by
    rw [Int.floor_eq_iff]
    constructor <;> norm_num
  have t1 : ratTrunc (((9999 : ℚ) / 10000) / 1) = 0 := by
    rw [ratTrunc_of_nonneg (by norm_num), div_one]
    exact f1
  have m1 : jsMod ((9999 : ℚ) / 10000) 1 = 9999 / 10000 := by
    unfold jsMod
    rw [t1]
    norm_num
  have r1 : jsRound (((9999 : ℚ) / 10000) * 60) = 60 := by
    unfold jsRound
    rw [Int.floor_eq_iff]
    constructor <;> norm_num
  simp only [formatTripTime]
  rw [f0, m24, f1, m1, r1]
  rfl

/-- C7 (spec-modelled): along every simulator trace starting from a validly
seeded state (`cycle_hours_used` within the rule's limit, as enforced by
parameter validation), `cycle_hours_used` never exceeds the cycle limit:
on-duty accrual is guarded by `cycleHasCapacity` and a 34-hour restart only
resets the counter to 0. In particular the claim holds — the counter never
exceeds the limit at any point, with or without an earlier restart. -/
theorem cycle_hours_within_limit (limit : ℚ) (enable34 : Bool) (init s : CycleState)
    (hlim : 0 ≤ limit) (hinit : init.cycle_hours_used ≤ limit)
    (htrace : SimReachable limit enable34 init s) :
    s.cycle_hours_used ≤ limit := by
  unfold SimReachable at htrace
  induction htrace with
  | refl => exact hinit
  | tail _ step ih =>
    cases step with
    | duty d hd hcap => exact hcap
    | off d hd hno => exact ih
    | restart34 d h34 he => exact hlim

/-- Witness for C7: from a fresh state under the 70-hour rule, a single
5-hour duty step leaves the cycle counter at 5 ≤ 70. -/
theorem cycle_hours_within_limit_witness :
    ({ drive_hours_since_break := 0
       on_duty_window_elapsed := 0 + 5
       cycle_hours_used := 0 + 5
       absolute_hour := 0 + 5 } : CycleState).cycle_hours_used ≤ 70 :=
  cycle_hours_within_limit 70 true ⟨0, 0, 0, 0⟩ _ (by norm_num) (by norm_num)
    (Relation.ReflTransGen.single
      (SimStep.duty ⟨0, 0, 0, 0⟩ 5 (by norm_num)
        (show (0:ℚ) + 5 ≤ 70 by norm_num)))
